import Mathlib

/-!
Verification of the HackRx-6.0 insurance document-query pipeline.

The repository ships the Next.js presentation layer (under `frontend/`) and
design documents for the multi-agent query pipeline.  Frontend functions
(`middleware`, `toggleDocumentSelection`, the chat request builder and the
response renderer) are embedded directly from the TypeScript source.  The
pipeline core (parser, retrieval, evaluation, synthesis) is not part of the
checked-in source tree, so those operations are modelled from the
specification, as flagged in each doc comment.
-/

namespace HackRx

/-- Document lifecycle status, the four values of `processing_status` used
throughout the frontend (`DocumentList`, `InsuranceChat`) and the spec. -/
inductive ProcessingStatus where
  | pending
  | processing
  | completed
  | failed
deriving DecidableEq, Repr

/-- A document record as the frontend sees it: identifier, owning user,
original filename and lifecycle status. -/
structure Document where
  id : Nat
  user_id : Nat
  original_filename : String
  processing_status : ProcessingStatus
deriving DecidableEq, Repr

/-- A chunk of an indexed document: identifier, owning document, ordinal
position, raw text, vector embedding and optional page metadata. -/
structure Chunk where
  id : Nat
  doc_id : Nat
  ordinal : Nat
  text : String
  embedding : List ℚ
  page : Option Nat
deriving DecidableEq, Repr

/-- One entry of a RetrievalResult: a chunk reference, its blended relevance
score and a matched-attribute explanation. -/
structure ScoredChunk where
  chunk : Chunk
  score : ℚ
  explanation : String
deriving DecidableEq, Repr

/-- Ordered sequence of scored chunks returned by the Retrieval Agent. -/
structure RetrievalResult where
  entries : List ScoredChunk
deriving DecidableEq, Repr

/-- The three-valued decision enum of the response schema. -/
inductive Decision where
  | approved
  | rejected
  | requires_more_info
deriving DecidableEq, Repr

/-- Outcome of one eligibility rule: pass, fail, or unknown. -/
inductive RuleOutcome where
  | pass
  | fail
  | unknown
deriving DecidableEq, Repr

/-- One extracted query attribute with its per-attribute confidence. -/
structure RawAttr where
  name : String
  value : String
  confidence : ℚ
deriving DecidableEq, Repr

/-- Structured extraction of a free-text query: raw text, recovered
attributes and overall parse confidence. -/
structure ParsedQuery where
  raw : String
  attributes : List RawAttr
  confidence : ℚ
deriving DecidableEq, Repr

/-- One rule-trace entry: rule id, inputs consumed, outcome, the clauses the
rule relied on, per-rule confidence, and a summary line for justification. -/
structure RuleTraceEntry where
  ruleId : Nat
  inputs : List String
  outcome : RuleOutcome
  clauses : List Chunk
  confidence : ℚ
  summary : String
deriving DecidableEq, Repr

/-- Decision draft produced by the Evaluation Agent. -/
structure EvaluationDraft where
  decision : Decision
  amount : Option ℚ
  ruleTrace : List RuleTraceEntry
  confidence : ℚ
deriving DecidableEq, Repr

/-- A source citation of the response schema. -/
structure Citation where
  document_id : Nat
  chunk_id : Nat
  quoted_text : String
  page : Option Nat
deriving DecidableEq, Repr

/-- The externally visible response record of the query endpoint. -/
structure StructuredResponse where
  decision : Decision
  amount : Option ℚ
  justification : String
  sources : List Citation
  confidence_score : ℚ
  processing_time_ms : Nat
deriving DecidableEq, Repr

/-- A chat query request: query text plus optional document-id filter, as
sent by `apiClient.sendChatQuery`. -/
structure QueryRequest where
  query : String
  document_ids : Option (List Nat)
deriving DecidableEq, Repr

/-! ### Frontend definitions, embedded from the TypeScript source -/

/-- Outcome of the Next.js route middleware: a redirect or pass-through. -/
inductive MiddlewareOutcome where
  | redirect (target : String)
  | next
deriving DecidableEq, Repr

/-- From `frontend/middleware.ts` lines 4-24: redirect authenticated users
away from `/auth`, redirect unauthenticated users of protected paths to
`/auth`, pass everything else through.  The request path is embedded as a
character list; `startsWith` becomes `List.isPrefixOf`. -/
def middleware (hasToken : Bool) (path : List Char) : MiddlewareOutcome :=
  let isAuthPage := "/auth".data.isPrefixOf path
  let isDashboardPage := "/dashboard".data.isPrefixOf path
  let isPublicPage := path == "/".data || "/public".data.isPrefixOf path
  if hasToken && isAuthPage then .redirect "/dashboard"
  else if !hasToken && (isDashboardPage || (!isPublicPage && !isAuthPage)) then
    .redirect "/auth"
  else .next

/-- From `frontend/components/chat/InsuranceChat.tsx` lines 119-125: toggle a
document id in the selection list — remove it when present, append it when
absent. -/
def toggleDocumentSelection (docId : Nat) (prev : List Nat) : List Nat :=
  if docId ∈ prev then prev.filter (fun id => id != docId)
  else prev ++ [docId]

/-- From `frontend/components/chat/InsuranceChat.tsx` line 82: the request's
`document_ids` field is the selected list when non-empty and omitted
(`undefined`) when empty. -/
def requestDocumentIds (selectedDocuments : List Nat) : Option (List Nat) :=
  if selectedDocuments.length > 0 then some selectedDocuments else none

/-- From `frontend/components/chat/InsuranceChat.tsx` lines 173-181: the
amount row is rendered exactly when the response carries an amount and it is
strictly positive (`message.response.amount && message.response.amount > 0`). -/
def amountRendered (r : StructuredResponse) : Bool :=
  match r.amount with
  | some a => decide (0 < a)
  | none => false

/-! ### Pipeline core, modelled from the specification

The parser, retrieval, evaluation and synthesis stages are described in the
design documents but their implementation is not part of the checked-in
source tree; each definition below is modelled from the spec section named
in its doc comment. -/

/-- Modelled from the spec: Query Parser configuration — the query length
bound (§4.2) and the per-attribute confidence threshold below which an
attribute is marked absent. -/
structure ParserConfig where
  maxQueryLength : Nat
  attrThreshold : ℚ
deriving DecidableEq, Repr

/-- Hard errors of the Query Parser (spec §4.2): empty input or input
exceeding the length bound. -/
inductive ParseError where
  | emptyQuery
  | queryTooLong
deriving DecidableEq, Repr

/-- Modelled from the spec: Query Parser (§4.2).  Fails only on empty or
over-long input; otherwise the attribute extraction capability is applied,
attributes below the confidence threshold are marked absent, and the
partial parse is returned. -/
def parseQuery (cfg : ParserConfig) (extract : String → List RawAttr × ℚ)
    (q : String) : Except ParseError ParsedQuery :=
  if q.length = 0 then .error .emptyQuery
  else if cfg.maxQueryLength < q.length then .error .queryTooLong
  else
    let e := extract q
    .ok { raw := q
        , attributes := e.1.filter (fun a => cfg.attrThreshold ≤ a.confidence)
        , confidence := e.2 }

/-- Modelled from the spec: the documents selected as the search universe
(§4.3) — the requesting user's documents, restricted to an explicit id
filter when one is provided. -/
def selectedDocs (user : Nat) (docs : List Document)
    (idFilter : Option (List Nat)) : List Document :=
  match idFilter with
  | some ids => docs.filter (fun d => d.user_id == user && ids.contains d.id)
  | none => docs.filter (fun d => d.user_id == user)

/-- Modelled from the spec: candidate documents of a query — the selected
universe restricted to `completed` documents; a document still `processing`
is excluded from the candidate set (§4.3, §5). -/
def candidateDocs (user : Nat) (docs : List Document)
    (idFilter : Option (List Nat)) : List Document :=
  (selectedDocs user docs idFilter).filter
    (fun d => d.processing_status == .completed)

/-- Retrieval ordering: `a` may precede `b` when `a` has the larger blended
score, or on a score tie when `a` has the smaller (stable) chunk ordinal
(spec §3, §4.3). -/
def rankLE (a b : ScoredChunk) : Prop :=
  b.score < a.score ∨ (a.score = b.score ∧ a.chunk.ordinal ≤ b.chunk.ordinal)

instance : DecidableRel rankLE := fun a b => by
  unfold rankLE; infer_instance

/-- Strict retrieval priority: strictly larger score, or a score tie with a
strictly smaller chunk ordinal. -/
def rankBefore (a b : ScoredChunk) : Prop :=
  b.score < a.score ∨ (a.score = b.score ∧ a.chunk.ordinal < b.chunk.ordinal)

instance : DecidableRel rankBefore := fun a b => by
  unfold rankBefore; infer_instance

instance : IsTotal ScoredChunk rankLE := by
  constructor
  intro a b
  unfold rankLE
  rcases lt_trichotomy a.score b.score with h | h | h
  · exact Or.inr (Or.inl h)
  · rcases Nat.le_total a.chunk.ordinal b.chunk.ordinal with ho | ho
    · exact Or.inl (Or.inr ⟨h, ho⟩)
    · exact Or.inr (Or.inr ⟨h.symm, ho⟩)
  · exact Or.inl (Or.inl h)

instance : IsTrans ScoredChunk rankLE := by
  constructor
  intro a b c hab hbc
  unfold rankLE at hab hbc ⊢
  rcases hab with h1 | ⟨h1, h1o⟩ <;> rcases hbc with h2 | ⟨h2, h2o⟩
  · exact Or.inl (h2.trans h1)
  · exact Or.inl (by rw [← h2]; exact h1)
  · exact Or.inl (by rw [h1]; exact h2)
  · exact Or.inr ⟨h1.trans h2, h1o.trans h2o⟩

instance : IsAntisymm ScoredChunk rankBefore := by
  constructor
  intro a b hab hba
  exfalso
  unfold rankBefore at hab hba
  rcases hab with h1 | ⟨h1, h1o⟩ <;> rcases hba with h2 | ⟨h2, h2o⟩
  · exact lt_asymm h1 h2
  · exact lt_irrefl _ (h2 ▸ h1)
  · exact lt_irrefl _ (h1 ▸ h2)
  · exact Nat.lt_asymm h1o h2o

/-- Modelled from the spec: rank scored chunks by descending blended score,
ties broken by the stable chunk ordinal (§3, §4.3). -/
def rank (entries : List ScoredChunk) : List ScoredChunk :=
  List.insertionSort rankLE entries

/-- Modelled from the spec: Retrieval Agent (§4.3).  Scores each chunk of a
candidate document with the blended-score capability, ranks deterministically
and keeps the top `K`.  An empty candidate set yields an empty result rather
than an error. -/
def retrieve (scoreOf : ParsedQuery → Chunk → ℚ)
    (explain : ParsedQuery → Chunk → String)
    (user : Nat) (docs : List Document) (chunks : List Chunk)
    (idFilter : Option (List Nat)) (K : Nat) (pq : ParsedQuery) :
    RetrievalResult :=
  let cands := candidateDocs user docs idFilter
  let cchunks := chunks.filter (fun c => cands.any (fun d => d.id == c.doc_id))
  let scored := cchunks.map
    (fun c => ScoredChunk.mk c (scoreOf pq c) (explain pq c))
  ⟨(rank scored).take K⟩

/-- Modelled from the spec: aggregate confidence (§4.4) — a monotone
combination of the per-rule confidences and the retrieval relevance scores
that never exceeds the weakest link; realised as the minimum over all
contributions (capped at 1). -/
def aggregateConfidence (ruleConfs relScores : List ℚ) : ℚ :=
  (ruleConfs ++ relScores).foldr min 1

/-- Modelled from the spec: one declared eligibility rule (§4.4, §9) — a
unit consuming ParsedQuery attributes and retrieved clauses and producing a
rule-trace entry. -/
structure Rule where
  run : ParsedQuery → List ScoredChunk → RuleTraceEntry

/-- Modelled from the spec: Evaluation Agent thresholds — the confidence at
which a rule failure counts as a high-confidence exclusion and the
confidence sufficient for approval (§4.4). -/
structure EvalConfig where
  highConfidence : ℚ
  sufficientConfidence : ℚ
deriving DecidableEq, Repr

/-- Modelled from the spec: decision policy (§4.4) — reject on a
high-confidence rule failure, approve when all rules pass with sufficient
confidence and an amount was determined, otherwise `requires_more_info`. -/
def decideFrom (cfg : EvalConfig) (trace : List RuleTraceEntry)
    (amount : Option ℚ) : Decision :=
  if trace.any (fun e => e.outcome == .fail && cfg.highConfidence ≤ e.confidence)
  then .rejected
  else if trace.all
      (fun e => e.outcome == .pass && cfg.sufficientConfidence ≤ e.confidence)
      && amount.isSome
  then .approved
  else .requires_more_info

/-- Modelled from the spec: Evaluation Agent (§4.4).  Empty retrieval
evidence is a valid input producing `requires_more_info` with an empty rule
trace and zero confidence, never an error; otherwise every declared rule is
applied in order, an amount is looked up from the trace, and the aggregate
confidence is the monotone combination of rule confidences and relevance
scores. -/
def evaluate (cfg : EvalConfig) (rules : List Rule)
    (amountOf : List RuleTraceEntry → Option ℚ)
    (pq : ParsedQuery) (rr : RetrievalResult) : EvaluationDraft :=
  if rr.entries.isEmpty then
    { decision := .requires_more_info, amount := none
    , ruleTrace := [], confidence := 0 }
  else
    let trace := rules.map (fun r => r.run pq rr.entries)
    let amount := amountOf trace
    { decision := decideFrom cfg trace amount
    , amount := amount
    , ruleTrace := trace
    , confidence :=
        aggregateConfidence (trace.map (fun e => e.confidence))
          (rr.entries.map (fun e => e.score)) }

/-- Internal invariant violations of the pipeline (spec §7): a citation
referencing a chunk outside the retrieval set is fatal, never coerced into
a decision. -/
inductive InternalError where
  | citationOutsideRetrieval
deriving DecidableEq, Repr

/-- Citation record for a cited chunk (spec §3). -/
def citationOf (c : Chunk) : Citation :=
  { document_id := c.doc_id, chunk_id := c.id
  , quoted_text := c.text, page := c.page }

/-- Clamp a rational to `[0,1]`, the schema range of `confidence_score`
(spec §4.5 substitutes a well-defined value rather than emitting an
out-of-schema field). -/
def clamp01 (x : ℚ) : ℚ := max 0 (min 1 x)

/-- The chunks referenced by a draft's rule trace, in rule-declaration
order (spec §4.5: the citation list is exactly these). -/
def citedChunks (draft : EvaluationDraft) : List Chunk :=
  (draft.ruleTrace.map (fun e => e.clauses)).flatten

/-- True when every chunk cited by the rule trace is present in the
retrieval result, compared by chunk id. -/
def citationsWithin (draft : EvaluationDraft) (rr : RetrievalResult) : Bool :=
  (citedChunks draft).all (fun c => rr.entries.any (fun s => s.chunk.id == c.id))

/-- Modelled from the spec: Response Synthesizer (§4.5, §7).  Citations are
exactly the chunks referenced by the rule trace; if any cited chunk is not
present in the retrieval result the invariant violation is surfaced as a
fatal internal error.  The amount is rendered only for an `approved`
decision, the justification is composed from the rule trace in declaration
order, and the confidence is clamped to the schema range. -/
def synthesize (draft : EvaluationDraft) (rr : RetrievalResult)
    (elapsed_ms : Nat) : Except InternalError StructuredResponse :=
  if citationsWithin draft rr then
    .ok { decision := draft.decision
        , amount := match draft.decision, draft.amount with
                    | .approved, some a => some a
                    | _, _ => none
        , justification :=
            String.intercalate "; " (draft.ruleTrace.map (fun e => e.summary))
        , sources := (citedChunks draft).map citationOf
        , confidence_score := clamp01 draft.confidence
        , processing_time_ms := elapsed_ms }
  else .error .citationOutsideRetrieval

/-- Pipeline-level errors: a client error from parsing or a fatal internal
error from synthesis (spec §7). -/
inductive PipelineError where
  | clientError (e : ParseError)
  | internalError (e : InternalError)
deriving DecidableEq, Repr

/-- Modelled from the spec: the Orchestrator's stage sequence 2→3→4→5 for
one query (§4.6) — parse, retrieve, evaluate, synthesize. -/
def processQuery (pcfg : ParserConfig) (ecfg : EvalConfig)
    (extract : String → List RawAttr × ℚ)
    (scoreOf : ParsedQuery → Chunk → ℚ)
    (explain : ParsedQuery → Chunk → String)
    (rules : List Rule) (amountOf : List RuleTraceEntry → Option ℚ)
    (user : Nat) (docs : List Document) (chunks : List Chunk) (K : Nat)
    (elapsed_ms : Nat) (req : QueryRequest) :
    Except PipelineError StructuredResponse :=
  match parseQuery pcfg extract req.query with
  | .error e => .error (.clientError e)
  | .ok pq =>
    let rr := retrieve scoreOf explain user docs chunks req.document_ids K pq
    let draft := evaluate ecfg rules amountOf pq rr
    match synthesize draft rr elapsed_ms with
    | .error e => .error (.internalError e)
    | .ok resp => .ok resp

/-- Modelled from the spec: the document lifecycle transition relation
(§4.1, §3) — `pending → processing` on start, `processing → completed` on
success, `processing → failed` on any unrecoverable error; no other
transition exists. -/
inductive StatusStep : ProcessingStatus → ProcessingStatus → Prop where
  | start : StatusStep .pending .processing
  | success : StatusStep .processing .completed
  | failure : StatusStep .processing .failed

/-! ### Concrete fixtures used by the witness theorems -/

/-- A sample indexed chunk (ordinal 0). -/
def chunkA : Chunk := ⟨1, 10, 0, "90-day waiting period", [1, 0], some 2⟩

/-- A second sample chunk (ordinal 1) of the same document. -/
def chunkB : Chunk := ⟨2, 10, 1, "Pune is a Zone-1 city", [0, 1], some 3⟩

/-- `chunkA` scored for retrieval. -/
def entryA : ScoredChunk := ⟨chunkA, 1, "matched waiting period"⟩

/-- `chunkB` scored for retrieval, tied with `entryA` on score. -/
def entryB : ScoredChunk := ⟨chunkB, 1, "matched location"⟩

/-- A rule-trace entry relying on `chunkA`. -/
def traceA : RuleTraceEntry :=
  ⟨1, ["age"], .pass, [chunkA], 1, "waiting period satisfied"⟩

/-- A rule-trace entry relying on `chunkB`. -/
def traceB : RuleTraceEntry :=
  ⟨2, ["location"], .pass, [chunkB], 1, "location covered"⟩

/-- A draft whose citations all lie inside `rrA`. -/
def draftGood : EvaluationDraft := ⟨.approved, some 50000, [traceA], mkRat 9 10⟩

/-- A draft citing `chunkB`, which is outside `rrA`. -/
def draftBad : EvaluationDraft := ⟨.approved, some 50000, [traceB], 1⟩

/-- Retrieval result containing only `entryA`. -/
def rrA : RetrievalResult := ⟨[entryA]⟩

/-- A sample attribute-extraction capability. -/
def sampleExtract : String → List RawAttr × ℚ :=
  fun _ => ([⟨"age", "46", mkRat 9 10⟩, ⟨"location", "Pune", mkRat 1 4⟩], mkRat 4 5)

/-- A sample blended-score capability. -/
def sampleScore : ParsedQuery → Chunk → ℚ :=
  fun _ c => mkRat 1 (c.ordinal + 1)

/-- A sample matched-attribute explanation capability. -/
def sampleExplain : ParsedQuery → Chunk → String := fun _ _ => "match"

/-- A sample amount lookup. -/
def sampleAmountOf : List RuleTraceEntry → Option ℚ := fun _ => some 50000

/-- A sample eligibility rule citing the top retrieved chunk. -/
def sampleRule : Rule :=
  ⟨fun _ entries =>
    ⟨1, ["age"], .pass, (entries.take 1).map (fun e => e.chunk), 1, "ok"⟩⟩

/-- A sample parser configuration. -/
def pcfg0 : ParserConfig := ⟨1000, mkRat 1 2⟩

/-- A sample evaluation configuration. -/
def ecfg0 : EvalConfig := ⟨mkRat 9 10, mkRat 7 10⟩

/-- A document still processing, owned by user 7. -/
def docProcessing : Document := ⟨10, 7, "policy.pdf", .processing⟩

/-- A completed document owned by user 7. -/
def docDone : Document := ⟨11, 7, "health.pdf", .completed⟩

/-- A sample query request without an explicit document filter. -/
def reqA : QueryRequest := ⟨"knee surgery in Pune", none⟩

/-- The response synthesized from `draftGood` and `rrA`. -/
def respGood : StructuredResponse :=
  ⟨.approved, some 50000, "waiting period satisfied", [citationOf chunkA],
    clamp01 (mkRat 9 10), 3⟩

/-- The `requires_more_info` response produced for empty retrieval
evidence. -/
def rmiResponse (t : Nat) : StructuredResponse :=
  ⟨.requires_more_info, none, String.intercalate "; " [], [], clamp01 0, t⟩

/-! ### Theorems -/

/-- C10: for every selection list without duplicate ids and every document
id `d`, toggling `d` produces a list in which `d` is a member iff it was not
a member before, every other element `e` is preserved, and the
no-duplicates invariant is maintained. -/
theorem toggleDocumentSelection_spec (d e : Nat) (l : List Nat)
    (hnd : l.Nodup) (hne : e ≠ d) :
    (d ∈ toggleDocumentSelection d l ↔ d ∉ l)
    ∧ (e ∈ toggleDocumentSelection d l ↔ e ∈ l)
    ∧ (toggleDocumentSelection d l).Nodup := by
  unfold toggleDocumentSelection
  by_cases hd : d ∈ l
  · rw [if_pos hd]
    refine ⟨?_, ?_, hnd.filter _⟩
    · simp [List.mem_filter, hd]
    · simp [List.mem_filter, hne]
  · rw [if_neg hd]
    refine ⟨?_, ?_, ?_⟩
    · simp [hd]
    · simp [hne]
    · simp [List.nodup_append, hnd, hd]

/-- Witness for C10 at `d = 2`, `e = 3`, `l = [1, 2]`. -/
theorem toggleDocumentSelection_spec_witness :
    ((2 : Nat) ∈ toggleDocumentSelection 2 [1, 2] ↔ (2 : Nat) ∉ ([1, 2] : List Nat))
    ∧ ((3 : Nat) ∈ toggleDocumentSelection 2 [1, 2] ↔ (3 : Nat) ∈ ([1, 2] : List Nat))
    ∧ (toggleDocumentSelection 2 [1, 2]).Nodup :=
  toggleDocumentSelection_spec 2 3 [1, 2] (by decide) (by decide)

/-- A path under `/dashboard` is neither the root, nor under `/public`, nor
under `/auth`. -/
theorem dashboard_path_facts (path : List Char)
    (h : "/dashboard".data.isPrefixOf path = true) :
    (path == "/".data) = false
    ∧ "/public".data.isPrefixOf path = false
    ∧ "/auth".data.isPrefixOf path = false := by
  match path with
  | [] => exact absurd h (by decide)
  | [a] =>
    rw [show "/dashboard".data = ['/', 'd', 'a', 's', 'h', 'b', 'o', 'a', 'r', 'd'] from rfl] at h
    simp [List.isPrefixOf] at h
  | a :: b :: rest =>
    rw [show "/dashboard".data = ['/', 'd', 'a', 's', 'h', 'b', 'o', 'a', 'r', 'd'] from rfl] at h
    rw [show "/".data = ['/'] from rfl,
        show "/public".data = ['/', 'p', 'u', 'b', 'l', 'i', 'c'] from rfl,
        show "/auth".data = ['/', 'a', 'u', 't', 'h'] from rfl]
    simp only [List.isPrefixOf, Bool.and_eq_true, beq_iff_eq] at h
    obtain ⟨ha, hb, -⟩ := h
    subst ha; subst hb
    refine ⟨by simp, ?_, ?_⟩ <;> simp [List.isPrefixOf]

/-- C9: the route middleware returns exactly one outcome per request — a
token-carrying request to an `/auth` path is redirected to `/dashboard`; a
token-less request to a path that is not the root, not under `/public` and
not under `/auth` is redirected to `/auth`; every other request passes
through.  In particular no unauthenticated request ever reaches a
`/dashboard` route. -/
theorem middleware_routing_spec (tok : Bool) (path : List Char) :
    (middleware tok path =
      if tok && "/auth".data.isPrefixOf path then .redirect "/dashboard"
      else if !tok && !(path == "/".data) && !("/public".data.isPrefixOf path)
          && !("/auth".data.isPrefixOf path) then .redirect "/auth"
      else .next)
    ∧ (tok = false → "/dashboard".data.isPrefixOf path = true →
        middleware tok path = .redirect "/auth") := by
  by_cases hd : "/dashboard".data.isPrefixOf path = true
  · obtain ⟨h1, h2, h3⟩ := dashboard_path_facts path hd
    constructor
    · cases tok <;> simp [middleware, hd, h1, h2, h3]
    · intro ht _
      subst ht
      simp [middleware, hd, h1, h2, h3]
  · rw [Bool.not_eq_true] at hd
    constructor
    · cases tok <;>
        by_cases ha : "/auth".data.isPrefixOf path = true <;>
        by_cases hr : (path == "/".data) = true <;>
        by_cases hp : "/public".data.isPrefixOf path = true <;>
        simp_all [middleware]
    · intro _ hcontra
      rw [hcontra] at hd
      exact absurd hd (by simp)

/-- Witness for C9: an unauthenticated request to a dashboard route is
redirected to `/auth`. -/
theorem middleware_routing_spec_witness :
    middleware false "/dashboard/settings".data = .redirect "/auth" :=
  (middleware_routing_spec false "/dashboard/settings".data).2 rfl (by decide)

/-- C7: the document lifecycle only ever moves forward along
`pending → processing → completed | failed`: no reachable sequence of
transitions moves a document from `processing` back to `pending` or out of
`completed` or `failed`, while the forward paths are reachable. -/
theorem document_status_monotone (s : ProcessingStatus) :
    (Relation.ReflTransGen StatusStep .processing s → s ≠ .pending)
    ∧ (Relation.ReflTransGen StatusStep .completed s → s = .completed)
    ∧ (Relation.ReflTransGen StatusStep .failed s → s = .failed)
    ∧ Relation.ReflTransGen StatusStep .pending .completed
    ∧ Relation.ReflTransGen StatusStep .pending .failed := by
  refine ⟨?_, ?_, ?_, ?_, ?_⟩
  · intro h
    induction h with
    | refl => simp
    | tail _ hstep _ => cases hstep <;> simp
  · intro h
    induction h with
    | refl => rfl
    | tail _ hstep ih => rw [ih] at hstep; cases hstep
  · intro h
    induction h with
    | refl => rfl
    | tail _ hstep ih => rw [ih] at hstep; cases hstep
  · exact (Relation.ReflTransGen.single StatusStep.start).tail StatusStep.success
  · exact (Relation.ReflTransGen.single StatusStep.start).tail StatusStep.failure

/-- Witness for C7: `processing` reaches itself and differs from `pending`,
and `completed` is reachable from `pending`. -/
theorem document_status_monotone_witness :
    ProcessingStatus.processing ≠ ProcessingStatus.pending
    ∧ Relation.ReflTransGen StatusStep .pending .completed :=
  ⟨(document_status_monotone .processing).1 Relation.ReflTransGen.refl,
   (document_status_monotone .processing).2.2.2.1⟩

/-- C8: the request's `document_ids` equals the selected list when it is
non-empty and is omitted when empty, and the resulting candidate set is all
of the user's completed documents for an empty selection and exactly the
selected subset of them otherwise. -/
theorem document_filter_spec (selected : List Nat) (user : Nat)
    (docs : List Document) (d : Document) :
    (selected ≠ [] → requestDocumentIds selected = some selected)
    ∧ (selected = [] → requestDocumentIds selected = none)
    ∧ (d ∈ candidateDocs user docs (requestDocumentIds selected) ↔
        d ∈ candidateDocs user docs none ∧ (selected = [] ∨ d.id ∈ selected)) := by
  refine ⟨?_, ?_, ?_⟩
  · intro h
    unfold requestDocumentIds
    rw [if_pos (List.length_pos.mpr h)]
  · intro h
    subst h
    rfl
  · rcases eq_or_ne selected [] with h | h
    · subst h
      simp [requestDocumentIds]
    · rw [show requestDocumentIds selected = some selected from by
        unfold requestDocumentIds; rw [if_pos (List.length_pos.mpr h)]]
      unfold candidateDocs selectedDocs
      simp only [List.mem_filter, Bool.and_eq_true, beq_iff_eq, h,
        false_or, List.contains, List.elem_eq_mem, decide_eq_true_eq]
      tauto

/-- Witness for C8 at a non-empty selection containing the completed
document's id. -/
theorem document_filter_spec_witness :
    (requestDocumentIds [11] = some [11])
    ∧ (docDone ∈ candidateDocs 7 [docProcessing, docDone]
        (requestDocumentIds [11]) ↔
      docDone ∈ candidateDocs 7 [docProcessing, docDone] none
        ∧ (([11] : List Nat) = [] ∨ docDone.id ∈ ([11] : List Nat))) :=
  ⟨(document_filter_spec [11] 7 [docProcessing, docDone] docDone).1 (by decide),
   (document_filter_spec [11] 7 [docProcessing, docDone] docDone).2.2⟩

/-- C6: the query parser fails with a hard error iff the input is empty or
exceeds the configured length bound; every non-empty in-bound query yields a
partial parse whose below-threshold attributes are marked absent, never an
outright rejection. -/
theorem parseQuery_hard_error_iff (cfg : ParserConfig)
    (extract : String → List RawAttr × ℚ) (q : String) :
    ((parseQuery cfg extract q).isOk = false ↔
      (q.length = 0 ∨ cfg.maxQueryLength < q.length))
    ∧ (∀ pq, parseQuery cfg extract q = .ok pq →
        pq.raw = q
        ∧ pq.attributes
            = (extract q).1.filter (fun a => cfg.attrThreshold ≤ a.confidence)
        ∧ ∀ a ∈ pq.attributes, cfg.attrThreshold ≤ a.confidence) := by
  by_cases h0 : q.length = 0
  · constructor
    · simp [parseQuery, h0, Except.isOk, Except.toBool]
    · intro pq hok
      rw [parseQuery, if_pos h0] at hok
      exact absurd hok (by simp)
  · by_cases h1 : cfg.maxQueryLength < q.length
    · constructor
      · simp [parseQuery, h0, h1, Except.isOk, Except.toBool]
      · intro pq hok
        rw [parseQuery, if_neg h0, if_pos h1] at hok
        exact absurd hok (by simp)
    · constructor
      · simp [parseQuery, h0, h1, Except.isOk, Except.toBool]
      · intro pq hok
        rw [parseQuery, if_neg h0, if_neg h1] at hok
        obtain rfl := Except.ok.inj hok
        refine ⟨rfl, rfl, ?_⟩
        intro a ha
        rw [List.mem_filter] at ha
        exact of_decide_eq_true ha.2

/-- Witness for C6: the empty query is a hard error, a short query is not. -/
theorem parseQuery_hard_error_iff_witness :
    ((parseQuery pcfg0 sampleExtract "").isOk = false ↔
      (("" : String).length = 0 ∨ pcfg0.maxQueryLength < ("" : String).length))
    ∧ ((parseQuery pcfg0 sampleExtract "knee surgery").isOk = false ↔
      (("knee surgery" : String).length = 0
        ∨ pcfg0.maxQueryLength < ("knee surgery" : String).length)) :=
  ⟨(parseQuery_hard_error_iff pcfg0 sampleExtract "").1,
   (parseQuery_hard_error_iff pcfg0 sampleExtract "knee surgery").1⟩

/-- C1: every citation in a synthesized StructuredResponse references a
chunk that was present in that query's RetrievalResult, and a draft citing
any chunk outside the retrieval set is surfaced as a fatal internal error,
never coerced into a decision. -/
theorem synthesize_citation_invariant (draft : EvaluationDraft)
    (rr : RetrievalResult) (t : Nat) :
    (∀ resp, synthesize draft rr t = .ok resp →
      ∀ cit ∈ resp.sources, ∃ e ∈ rr.entries, e.chunk.id = cit.chunk_id)
    ∧ (citationsWithin draft rr = false →
        synthesize draft rr t = .error .citationOutsideRetrieval) := by
  constructor
  · intro resp hok cit hcit
    unfold synthesize at hok
    by_cases hall : citationsWithin draft rr = true
    · rw [if_pos hall] at hok
      obtain rfl := Except.ok.inj hok
      dsimp only at hcit
      rw [List.mem_map] at hcit
      obtain ⟨c, hc, rfl⟩ := hcit
      have hany := List.all_eq_true.mp hall c hc
      rw [List.any_eq_true] at hany
      obtain ⟨s, hs, hbeq⟩ := hany
      exact ⟨s, hs, beq_iff_eq.mp hbeq⟩
    · rw [if_neg hall] at hok
      exact absurd hok (by simp)
  · intro hbad
    unfold synthesize
    rw [if_neg (by rw [hbad]; exact Bool.false_ne_true)]

/-- Witness for C1: a draft citing a chunk outside the retrieval set is a
fatal internal error. -/
theorem synthesize_citation_invariant_witness :
    synthesize draftBad rrA 3 = .error .citationOutsideRetrieval :=
  (synthesize_citation_invariant draftBad rrA 3).2 (by decide)

/-- C2: the decision is exactly one of the three enum values, and an amount
is present — and rendered by the chat frontend — only when the decision is
`approved` and an amount exists; for `rejected` and `requires_more_info`
the amount is absent and never rendered. -/
theorem decision_enum_amount_spec (d : Decision) (draft : EvaluationDraft)
    (rr : RetrievalResult) (t : Nat) (resp : StructuredResponse)
    (hok : synthesize draft rr t = .ok resp) :
    (d = .approved ∨ d = .rejected ∨ d = .requires_more_info)
    ∧ (amountRendered resp = true →
        resp.decision = .approved ∧ resp.amount.isSome = true)
    ∧ (resp.decision ≠ .approved →
        resp.amount = none ∧ amountRendered resp = false) := by
  have hfields : resp.decision = draft.decision ∧
      resp.amount = (match draft.decision, draft.amount with
        | .approved, some a => some a
        | _, _ => none) := by
    unfold synthesize at hok
    split at hok
    · obtain rfl := Except.ok.inj hok
      exact ⟨rfl, rfl⟩
    · exact absurd hok (by simp)
  obtain ⟨hdec, hamt⟩ := hfields
  refine ⟨by cases d <;> simp, ?_, ?_⟩ <;>
    rcases hdd : draft.decision <;> rw [hdd] at hdec hamt <;>
    rcases haa : draft.amount with _ | a <;> rw [haa] at hamt <;>
    simp only [] at hamt <;> simp_all [amountRendered]

/-- Witness for C2: the approved sample response carries an amount and its
rendering implies the decision is `approved`. -/
theorem decision_enum_amount_spec_witness :
    respGood.decision = .approved ∧ respGood.amount.isSome = true :=
  (decision_enum_amount_spec .approved draftGood rrA 3 respGood rfl).2.1
    (by decide)

/-- C3: when the selected document set is empty or contains only documents
that are not yet `completed`, retrieval returns an empty RetrievalResult
rather than erroring, the pipeline succeeds, and the final response has
decision `requires_more_info` with an empty sources list. -/
theorem empty_evidence_requires_more_info
    (pcfg : ParserConfig) (ecfg : EvalConfig)
    (extract : String → List RawAttr × ℚ)
    (scoreOf : ParsedQuery → Chunk → ℚ)
    (explain : ParsedQuery → Chunk → String)
    (rules : List Rule) (amountOf : List RuleTraceEntry → Option ℚ)
    (user : Nat) (docs : List Document) (chunks : List Chunk) (K t : Nat)
    (req : QueryRequest) (pq : ParsedQuery)
    (hdocs : ∀ d ∈ selectedDocs user docs req.document_ids,
      d.processing_status ≠ .completed)
    (hq0 : req.query.length ≠ 0)
    (hq1 : ¬ pcfg.maxQueryLength < req.query.length) :
    (retrieve scoreOf explain user docs chunks req.document_ids K pq).entries
      = []
    ∧ (processQuery pcfg ecfg extract scoreOf explain rules amountOf
        user docs chunks K t req).isOk = true
    ∧ ∀ resp, processQuery pcfg ecfg extract scoreOf explain rules amountOf
        user docs chunks K t req = .ok resp →
        resp.decision = .requires_more_info ∧ resp.sources = [] := by
  have hcand : candidateDocs user docs req.document_ids = [] := by
    unfold candidateDocs
    rw [List.filter_eq_nil_iff]
    intro d hd
    simp [hdocs d hd]
  have hrrAll : ∀ p, retrieve scoreOf explain user docs chunks
      req.document_ids K p = ⟨[]⟩ := by
    intro p
    unfold retrieve
    rw [hcand]
    simp [rank]
  have hparse : parseQuery pcfg extract req.query =
      .ok ⟨req.query,
        (extract req.query).1.filter
          (fun a => pcfg.attrThreshold ≤ a.confidence),
        (extract req.query).2⟩ := by
    unfold parseQuery
    rw [if_neg hq0, if_neg hq1]
  have hkey : processQuery pcfg ecfg extract scoreOf explain rules amountOf
      user docs chunks K t req = .ok (rmiResponse t) := by
    unfold processQuery
    rw [hparse]
    dsimp only
    rw [hrrAll]
    rfl
  refine ⟨?_, ?_, ?_⟩
  · rw [hrrAll pq]
  · rw [hkey]
    rfl
  · intro resp hok
    rw [hkey] at hok
    obtain rfl := (Except.ok.inj hok).symm
    exact ⟨rfl, rfl⟩

/-- Witness for C3 against a single still-processing document. -/
theorem empty_evidence_requires_more_info_witness :
    (retrieve sampleScore sampleExplain 7 [docProcessing] [chunkA] none 10
        ⟨"knee surgery in Pune", [], 1⟩).entries = []
    ∧ (processQuery pcfg0 ecfg0 sampleExtract sampleScore sampleExplain
        [sampleRule] sampleAmountOf 7 [docProcessing] [chunkA] 10 5
        reqA).isOk = true :=
  ⟨(empty_evidence_requires_more_info pcfg0 ecfg0 sampleExtract sampleScore
      sampleExplain [sampleRule] sampleAmountOf 7 [docProcessing] [chunkA]
      10 5 reqA ⟨"knee surgery in Pune", [], 1⟩ (by decide) (by decide)
      (by decide)).1,
   (empty_evidence_requires_more_info pcfg0 ecfg0 sampleExtract sampleScore
      sampleExplain [sampleRule] sampleAmountOf 7 [docProcessing] [chunkA]
      10 5 reqA ⟨"knee surgery in Pune", [], 1⟩ (by decide) (by decide)
      (by decide)).2.1⟩

/-- Folding `min` over a list starting at 1 stays at most 1. -/
theorem foldrMin_le_one (l : List ℚ) : l.foldr min 1 ≤ 1 := by
  induction l with
  | nil => exact le_refl 1
  | cons a l ih => exact le_trans (min_le_right a _) ih

/-- Folding `min` never exceeds any member of the list. -/
theorem foldrMin_le_mem (l : List ℚ) (c : ℚ) (hc : c ∈ l) :
    l.foldr min 1 ≤ c := by
  induction l with
  | nil => cases hc
  | cons a l ih =>
    rcases List.mem_cons.mp hc with rfl | hc'
    · exact min_le_left _ _
    · exact le_trans (min_le_right _ _) (ih hc')

/-- Folding `min` over non-negative values is non-negative. -/
theorem foldrMin_nonneg (l : List ℚ) (h : ∀ x ∈ l, 0 ≤ x) :
    0 ≤ l.foldr min 1 := by
  induction l with
  | nil => exact zero_le_one
  | cons a l ih =>
    exact le_min (h a (List.mem_cons_self a l))
      (ih fun x hx => h x (List.mem_cons_of_mem a hx))

/-- Folding `min` is monotone in every list entry. -/
theorem foldrMin_mono (l l' : List ℚ) (h : List.Forall₂ (· ≤ ·) l l') :
    l.foldr min 1 ≤ l'.foldr min 1 := by
  induction h with
  | nil => exact le_refl 1
  | cons hab _ ih => exact min_le_min hab ih

/-- C4: every synthesized response has `confidence_score` in `[0,1]`, and
the aggregate confidence used by evaluation never exceeds any contributing
per-rule confidence or retrieval relevance score and never increases when
any contribution is lowered. -/
theorem confidence_monotone_spec (draft : EvaluationDraft)
    (rr : RetrievalResult) (t : Nat) (resp : StructuredResponse)
    (ruleConfs relScores ruleConfs' relScores' : List ℚ) (c : ℚ)
    (hok : synthesize draft rr t = .ok resp)
    (hc : c ∈ ruleConfs ++ relScores)
    (h1 : List.Forall₂ (· ≤ ·) ruleConfs ruleConfs')
    (h2 : List.Forall₂ (· ≤ ·) relScores relScores') :
    (0 ≤ resp.confidence_score ∧ resp.confidence_score ≤ 1)
    ∧ aggregateConfidence ruleConfs relScores ≤ c
    ∧ aggregateConfidence ruleConfs relScores
        ≤ aggregateConfidence ruleConfs' relScores' := by
  refine ⟨?_, foldrMin_le_mem _ _ hc, foldrMin_mono _ _ (List.rel_append h1 h2)⟩
  have hcs : resp.confidence_score = clamp01 draft.confidence := by
    unfold synthesize at hok
    split at hok
    · obtain rfl := Except.ok.inj hok
      rfl
    · exact absurd hok (by simp)
  rw [hcs]
  unfold clamp01
  exact ⟨le_max_left 0 _, max_le zero_le_one (min_le_left 1 _)⟩

/-- Witness for C4 on the sample synthesis and one-element confidence
lists. -/
theorem confidence_monotone_spec_witness :
    (0 ≤ respGood.confidence_score ∧ respGood.confidence_score ≤ 1)
    ∧ aggregateConfidence [1] [1] ≤ 1
    ∧ aggregateConfidence [1] [1] ≤ aggregateConfidence [1] [1] :=
  confidence_monotone_spec draftGood rrA 3 respGood [1] [1] [1] [1] 1 rfl
    (by decide)
    (List.Forall₂.cons (le_refl 1) List.Forall₂.nil)
    (List.Forall₂.cons (le_refl 1) List.Forall₂.nil)

/-- A list sorted by the non-strict ranking order with pairwise distinct
chunk ordinals is sorted by the strict ranking priority. -/
theorem sorted_rankBefore_of_sorted_rankLE (l : List ScoredChunk)
    (hs : l.Sorted rankLE)
    (hd : l.Pairwise (fun a b => a.chunk.ordinal ≠ b.chunk.ordinal)) :
    l.Sorted rankBefore := by
  refine (List.Pairwise.and hs hd).imp ?_
  rintro a b ⟨hle, hne⟩
  rcases hle with h | ⟨hscore, hord⟩
  · exact Or.inl h
  · exact Or.inr ⟨hscore, lt_of_le_of_ne hord hne⟩

/-- C5: retrieval ranking is deterministic — the ranked list is a
permutation of its input sorted by descending blended score with ties
broken by the stable chunk ordinal, and any list with those two properties
is equal to it, so re-running the same query on the same index state yields
an identical ordering. -/
theorem rank_deterministic_spec (entries l' : List ScoredChunk)
    (hord : entries.Pairwise (fun a b => a.chunk.ordinal ≠ b.chunk.ordinal))
    (hp : l'.Perm entries) (hs : l'.Sorted rankBefore) :
    (rank entries).Perm entries
    ∧ (rank entries).Sorted rankBefore
    ∧ l' = rank entries := by
  have hperm : (rank entries).Perm entries :=
    List.perm_insertionSort rankLE entries
  have hsortLE : (rank entries).Sorted rankLE :=
    List.sorted_insertionSort rankLE entries
  have hordRank :
      (rank entries).Pairwise
        (fun a b => a.chunk.ordinal ≠ b.chunk.ordinal) :=
    (hperm.pairwise_iff (fun h => Ne.symm h)).mpr hord
  have hsortB : (rank entries).Sorted rankBefore :=
    sorted_rankBefore_of_sorted_rankLE _ hsortLE hordRank
  exact ⟨hperm, hsortB,
    List.eq_of_perm_of_sorted (hp.trans hperm.symm) hs hsortB⟩

/-- Witness for C5: two equal-scored entries are ranked by ordinal, and the
sorted permutation is unique. -/
theorem rank_deterministic_spec_witness :
    (rank [entryB, entryA]).Perm [entryB, entryA]
    ∧ (rank [entryB, entryA]).Sorted rankBefore
    ∧ [entryA, entryB] = rank [entryB, entryA] :=
  rank_deterministic_spec [entryB, entryA] [entryA, entryB]
    (by decide) (by decide) (by decide)

end HackRx
